import Mathlib

/-
  Verification of the collaborative-code-editor OT engine.

  Shallow embedding of `backend/pkg/ot/operation.go`,
  `backend/internal/editor/ot_manager.go`, and the hub fan-out of
  `internal/editor/hub.go`.

  Modelling conventions:
  * Go strings (byte sequences) are modelled as `List Char`; `len` is
    `List.length`.  Positions and lengths are `Int` (Go `int`).
  * Go slicing `s[:i]` / `s[j:]` is `take i.toNat` / `drop j.toNat`.
    A negative slice index is a runtime panic in Go; `Int.toNat` clamps
    it to 0.  Every theorem below keeps its indices non-negative, so the
    clamped case is never exercised by a proved statement.
  * Go's lexicographic string comparison `<` is `goStrLt`.
  * The mutating `(d *Document) Apply` returns the updated document and
    a `nil`/non-`nil` error; here it returns `Document × Option ApplyError`,
    where the error case returns the receiver unchanged, exactly as the
    Go code returns before any mutation.
-/

namespace CollabEdit

/-- `OpType` from operation.go: OpInsert | OpDelete | OpRetain. -/
inductive OpType where
  | OpInsert
  | OpDelete
  | OpRetain
deriving DecidableEq, Repr

/-- `Operation` struct from operation.go.  The Go field `Type` is spelt
`opType` (`Type` is reserved in Lean).  Zero values mirror Go's. -/
structure Operation where
  opType : OpType := .OpRetain
  Position : Int := 0
  Content : List Char := []
  Length : Int := 0
  ClientID : List Char := []
  Version : Int := 0
deriving DecidableEq, Repr

/-- Go's lexicographic byte-wise string comparison `s < t`. -/
def goStrLt : List Char → List Char → Bool
  | [], [] => false
  | [], _ :: _ => true
  | _ :: _, [] => false
  | a :: as, b :: bs => if a < b then true else if b < a then false else goStrLt as bs

/-- `transformInsertInsert` from operation.go. -/
def transformInsertInsert (op1 op2 : Operation) : Operation × Operation :=
  if op1.Position < op2.Position then
    (op1, { op2 with Position := op2.Position + op1.Content.length })
  else if op1.Position > op2.Position then
    ({ op1 with Position := op1.Position + op2.Content.length }, op2)
  else
    if goStrLt op1.ClientID op2.ClientID then
      (op1, { op2 with Position := op2.Position + op1.Content.length })
    else
      ({ op1 with Position := op1.Position + op2.Content.length }, op2)

/-- `transformInsertDelete` from operation.go (parameters `insert`, `delete`). -/
def transformInsertDelete (insertOp deleteOp : Operation) : Operation × Operation :=
  if insertOp.Position ≤ deleteOp.Position then
    (insertOp, { deleteOp with Position := deleteOp.Position + insertOp.Content.length })
  else if insertOp.Position ≥ deleteOp.Position + deleteOp.Length then
    ({ insertOp with Position := insertOp.Position - deleteOp.Length }, deleteOp)
  else
    ({ insertOp with Position := deleteOp.Position }, deleteOp)

/-- `transformDeleteDelete` from operation.go. -/
def transformDeleteDelete (op1 op2 : Operation) : Operation × Operation :=
  if op1.Position + op1.Length ≤ op2.Position then
    (op1, { op2 with Position := op2.Position - op1.Length })
  else if op2.Position + op2.Length ≤ op1.Position then
    ({ op1 with Position := op1.Position - op2.Length }, op2)
  else
    if op1.Position < op2.Position then
      let overlap := op1.Position + op1.Length - op2.Position
      ({ op1 with Length := op1.Length - overlap },
       { op2 with Position := op1.Position, Length := op2.Length - overlap })
    else
      let overlap := op2.Position + op2.Length - op1.Position
      ({ op1 with Position := op2.Position, Length := op1.Length - overlap },
       { op2 with Length := op2.Length - overlap })

/-- `Transform` from operation.go: the outer double switch on the two
operation types.  In the Delete/Insert case Go assigns
`op2Prime, op1Prime = transformInsertDelete(op2, op1)`, hence the swap. -/
def Transform (op1 op2 : Operation) : Operation × Operation :=
  match op1.opType, op2.opType with
  | .OpInsert, .OpInsert => transformInsertInsert op1 op2
  | .OpInsert, .OpDelete => transformInsertDelete op1 op2
  | .OpDelete, .OpInsert =>
      let p := transformInsertDelete op2 op1
      (p.2, p.1)
  | .OpDelete, .OpDelete => transformDeleteDelete op1 op2
  | _, _ => (op1, op2)

/-- The two error values produced by `Apply`'s `fmt.Errorf` calls,
carrying the same data the Go format strings carry. -/
inductive ApplyError where
  | invalidInsertPosition (position contentLen : Int)
  | invalidDeleteRange (start stop contentLen : Int)
deriving DecidableEq, Repr

/-- The content part of `(d *Document) Apply`: the per-type switch that
either rejects the operation or splices the content.  Retain leaves the
content untouched (no case in the Go switch). -/
def applyContent (content : List Char) (op : Operation) : Except ApplyError (List Char) :=
  match op.opType with
  | .OpInsert =>
      if op.Position < 0 ∨ op.Position > (content.length : Int) then
        .error (.invalidInsertPosition op.Position content.length)
      else
        .ok (content.take op.Position.toNat ++ op.Content ++ content.drop op.Position.toNat)
  | .OpDelete =>
      if op.Position < 0 ∨ op.Position + op.Length > (content.length : Int) then
        .error (.invalidDeleteRange op.Position (op.Position + op.Length) content.length)
      else
        .ok (content.take op.Position.toNat ++ content.drop (op.Position + op.Length).toNat)
  | .OpRetain => .ok content

/-- `Document` struct from operation.go. -/
structure Document where
  Content : List Char
  Version : Int
  PendingOps : List Operation
  AcknowledgedOps : List Operation
deriving DecidableEq, Repr

/-- `NewDocument` from operation.go. -/
def NewDocument : Document :=
  { Content := [], Version := 0, PendingOps := [], AcknowledgedOps := [] }

/-- `(d *Document) Apply` from operation.go.  On a guard failure Go
returns the error before any mutation; on success the content is spliced,
`Version` is incremented and the op appended to `AcknowledgedOps`
(these two happen after the switch, for Retain as well). -/
def Document.apply (d : Document) (op : Operation) : Document × Option ApplyError :=
  match applyContent d.Content op with
  | .error e => (d, some e)
  | .ok c =>
      ({ d with Content := c, Version := d.Version + 1,
                AcknowledgedOps := d.AcknowledgedOps ++ [op] }, none)

/-- `(d *Document) TransformAgainstHistory` from operation.go: folds the
operation through `d.PendingOps`, transforming against entries whose
`ClientID` differs. -/
def Document.TransformAgainstHistory (d : Document) (op : Operation) : Operation :=
  d.PendingOps.foldl
    (fun transformed histOp =>
      if histOp.ClientID ≠ op.ClientID then (Transform transformed histOp).1
      else transformed)
    op

/-- First index at which the two lists differ, scanning only while both
indices are in range — the `for` loops of `GenerateOperation`. -/
def firstDiff : List Char → List Char → Option Nat
  | a :: as, b :: bs =>
      if a ≠ b then some 0 else (firstDiff as bs).map (· + 1)
  | _, _ => none

/-- `GenerateOperation` from operation.go.  The `position` argument is
unused in the Go code too. -/
def GenerateOperation (oldContent newContent : List Char) (position : Int)
    (clientID : List Char) : Operation :=
  let oldLen := oldContent.length
  let newLen := newContent.length
  if newLen > oldLen then
    let insertLen := newLen - oldLen
    match firstDiff oldContent newContent with
    | some i =>
        { opType := .OpInsert, Position := (i : Int),
          Content := (newContent.drop i).take insertLen, ClientID := clientID }
    | none =>
        { opType := .OpInsert, Position := (oldLen : Int),
          Content := newContent.drop oldLen, ClientID := clientID }
  else if oldLen > newLen then
    let deleteLen := oldLen - newLen
    match firstDiff oldContent newContent with
    | some i =>
        { opType := .OpDelete, Position := (i : Int),
          Length := (deleteLen : Int), ClientID := clientID }
    | none =>
        { opType := .OpDelete, Position := (newLen : Int),
          Length := (deleteLen : Int), ClientID := clientID }
  else
    { opType := .OpRetain }

/-- `OTManager` from ot_manager.go (the mutex is not modelled; the spec
serialises all calls). -/
structure OTManager where
  document : Document
  pendingOps : List Operation
  lastContent : List Char
  documentID : List Char
deriving DecidableEq, Repr

/-- `NewOTManager` from ot_manager.go. -/
def NewOTManager (documentID : List Char) : OTManager :=
  { document := NewDocument, pendingOps := [], lastContent := [], documentID := documentID }

/-- The operation `ProcessTextUpdate` ends up applying (generated from the
diff, version-stamped, rebased when the client is behind) — the value of
the local `op` right before the `Apply` call in ot_manager.go. -/
def OTManager.processedOp (m : OTManager) (clientID : List Char)
    (newContent : List Char) (clientVersion : Int) : Operation :=
  let op0 := GenerateOperation m.lastContent newContent 0 clientID
  let op1 := { op0 with Version := clientVersion }
  if clientVersion < m.document.Version
  then m.document.TransformAgainstHistory op1 else op1

/-- `(m *OTManager) ProcessTextUpdate` from ot_manager.go.  Returns the
`(content, version, error)` triple together with the post-call manager
state (Go mutates the receiver); the op it applies is `processedOp`. -/
def OTManager.ProcessTextUpdate (m : OTManager) (clientID : List Char)
    (newContent : List Char) (clientVersion : Int) :
    (List Char × Int × Option ApplyError) × OTManager :=
  match m.document.apply (m.processedOp clientID newContent clientVersion) with
  | (d, some e) => ((d.Content, d.Version, some e), { m with document := d })
  | (d, none) =>
      ((d.Content, d.Version, none), { m with document := d, lastContent := d.Content })

/-- A client as the hub sees it: only the identifier matters for fan-out. -/
structure HubClient where
  id : List Char
deriving DecidableEq, Repr

/-- The message envelope fields the hub's `handleBroadcast` inspects. -/
structure HubMessage where
  msgType : List Char
  clientID : List Char
  documentID : List Char
deriving DecidableEq, Repr

/-- `(h *Hub) broadcastToDocument` from hub.go (src/unnamed/part_001):
the recipient set is every client of the document whose `id` differs from
`excludeClientID`.  (A full send buffer removes a would-be recipient; it
never adds one, so the recipient set is modelled as the filter.) -/
def broadcastToDocument (docClients : List HubClient) (excludeClientID : List Char) :
    List HubClient :=
  docClients.filter (fun c => c.id ≠ excludeClientID)

/-- String literal as `List Char`. -/
def str (s : String) : List Char := s.data

/-- `(h *Hub) handleBroadcast` from hub.go (src/unnamed/part_001): the
type switch routes `text_update`, `cursor_position` and `selection`
explicitly, `broadcast_all` goes to every connected client, and every
other type falls to the per-document default when `documentId` is
non-empty; the originator's `clientId` is always the exclusion. -/
def handleBroadcast (docClients allClients : List HubClient) (msg : HubMessage) :
    List HubClient :=
  if msg.msgType = str "text_update" ∨ msg.msgType = str "cursor_position" ∨
     msg.msgType = str "selection" then
    broadcastToDocument docClients msg.clientID
  else if msg.msgType = str "broadcast_all" then
    allClients.filter (fun c => c.id ≠ msg.clientID)
  else if msg.documentID ≠ [] then
    broadcastToDocument docClients msg.clientID
  else
    []

/-- The in-bounds Insert splice with a `Nat` position. -/
def insAt (p : Nat) (t S : List Char) : List Char := S.take p ++ t ++ S.drop p

/-- The in-bounds Delete splice with `Nat` position and length. -/
def delAt (p l : Nat) (S : List Char) : List Char := S.take p ++ S.drop (p + l)

/-- Validity of an operation on base content `S`, as claim C1 describes it
and as `Apply`'s guards check it (with a non-negative Delete length). -/
abbrev validOn (op : Operation) (S : List Char) : Prop :=
  match op.opType with
  | .OpInsert => 0 ≤ op.Position ∧ op.Position ≤ (S.length : Int)
  | .OpDelete => 0 ≤ op.Position ∧ 0 ≤ op.Length ∧ op.Position + op.Length ≤ (S.length : Int)
  | .OpRetain => True

/-- `i` is an Insert with nonempty text whose position falls strictly inside
Delete `d`'s range — the configuration `transformInsertDelete` clamps and
does not converge on. -/
abbrev insStrictlyInside (i d : Operation) : Prop :=
  i.opType = .OpInsert ∧ d.opType = .OpDelete ∧ i.Content ≠ [] ∧
  d.Position < i.Position ∧ i.Position < d.Position + d.Length

/-- Overlapping Deletes where the leading one (strictly smaller position;
on a position tie the code treats the second argument as starting first)
ends strictly after the trailing one — the configuration where
`transformDeleteDelete`'s overlap arithmetic does not converge. -/
abbrev delLeadingOverrun (a b : Operation) : Prop :=
  a.opType = .OpDelete ∧ b.opType = .OpDelete ∧
  b.Position < a.Position + a.Length ∧ a.Position < b.Position + b.Length ∧
  ((a.Position < b.Position ∧ b.Position + b.Length < a.Position + a.Length) ∨
   (b.Position ≤ a.Position ∧ a.Position + a.Length < b.Position + b.Length))

/-- Two Inserts at the same position from the same originator, at least one
with nonempty text — `transformInsertInsert`'s tie-break shifts `op1` in
both argument orders there, breaking the mirror property. -/
abbrev insInsTieSameClient (a b : Operation) : Prop :=
  a.opType = .OpInsert ∧ b.opType = .OpInsert ∧ a.Position = b.Position ∧
  a.ClientID = b.ClientID ∧ (a.Content ≠ [] ∨ b.Content ≠ [])

/-- Two overlapping Deletes at the same position with different positive
lengths — the overlap arithmetic is asymmetric there, breaking the mirror
property. -/
abbrev delDelSamePosDiffLen (a b : Operation) : Prop :=
  a.opType = .OpDelete ∧ b.opType = .OpDelete ∧ a.Position = b.Position ∧
  0 < a.Length ∧ 0 < b.Length ∧ a.Length ≠ b.Length

/-- C2 scenario: a fresh document after client "b" applied Insert "A"@0;
the op lands in `AcknowledgedOps`, `PendingOps` stays empty. -/
def c2doc : Document :=
  (NewDocument.apply { opType := .OpInsert, Position := 0, Content := ['A'], ClientID := ['b'] }).1

/-- C2 scenario: the manager state after that first update (its
`lastContent` is the applied content, as `ProcessTextUpdate` leaves it). -/
def c2mgr : OTManager :=
  { NewOTManager ['d'] with document := c2doc, lastContent := c2doc.Content }

/-- Sequential application from a starting document, succeeding only when
every single `Apply` succeeds. -/
def applyAllOk : Document → List Operation → Option Document
  | d, [] => some d
  | d, op :: ops =>
      match d.apply op with
      | (d', none) => applyAllOk d' ops
      | (_, some _) => none

theorem length_insAt (p : Nat) (t S : List Char) (h : p ≤ S.length) :
    (insAt p t S).length = S.length + t.length := by
  simp [insAt]; omega

theorem length_delAt (p l : Nat) (S : List Char) (h : p + l ≤ S.length) :
    (delAt p l S).length = S.length - l := by
  simp [delAt]; omega

theorem insAt_nil (p : Nat) (S : List Char) : insAt p [] S = S := by
  simp [insAt]

theorem insAt_insAt_left (S t u : List Char) (px py : Nat) (hx : px ≤ py)
    (hy : py ≤ S.length) :
    insAt px t (insAt py u S)
      = S.take px ++ t ++ ((S.take py).drop px ++ u ++ S.drop py) := by
  unfold insAt
  have h1 : px ≤ (S.take py).length := by
    simp [List.length_take]; omega
  rw [show S.take py ++ u ++ S.drop py = S.take py ++ (u ++ S.drop py) by
    simp [List.append_assoc]]
  rw [List.take_append_of_le_length h1, List.drop_append_of_le_length h1]
  rw [List.take_take, Nat.min_eq_left hx]
  simp [List.append_assoc]

theorem insAt_insAt_right (S t u : List Char) (px py : Nat) (hx : px ≤ py)
    (hy : py ≤ S.length) :
    insAt (py + t.length) u (insAt px t S)
      = S.take px ++ t ++ ((S.take py).drop px ++ u ++ S.drop py) := by
  unfold insAt
  have hpx : px ≤ S.length := le_trans hx hy
  have hlen : (S.take px ++ t).length = px + t.length := by
    simp [List.length_take]; omega
  rw [show S.take px ++ t ++ S.drop px = (S.take px ++ t) ++ S.drop px by
    simp [List.append_assoc]]
  rw [show py + t.length = (S.take px ++ t).length + (py - px) by omega]
  rw [List.take_append, List.drop_append]
  rw [List.take_drop, List.drop_drop]
  rw [show px + (py - px) = py by omega]
  simp [List.append_assoc]

theorem delAt_insAt_before (S t : List Char) (pi pd l : Nat) (hx : pi ≤ pd)
    (hd : pd + l ≤ S.length) :
    delAt (pd + t.length) l (insAt pi t S)
      = S.take pi ++ t ++ ((S.take pd).drop pi ++ S.drop (pd + l)) := by
  unfold insAt delAt
  have hpi : pi ≤ S.length := by omega
  have hlen : (S.take pi ++ t).length = pi + t.length := by
    simp [List.length_take]; omega
  rw [show S.take pi ++ t ++ S.drop pi = (S.take pi ++ t) ++ S.drop pi by
    simp [List.append_assoc]]
  rw [show pd + t.length = (S.take pi ++ t).length + (pd - pi) by omega]
  rw [List.take_append]
  rw [show (S.take pi ++ t).length + (pd - pi) + l
        = (S.take pi ++ t).length + ((pd - pi) + l) by omega]
  rw [List.drop_append]
  rw [List.take_drop, List.drop_drop]
  rw [show pi + (pd - pi) = pd by omega]
  rw [show pi + ((pd - pi) + l) = pd + l by omega]
  simp [List.append_assoc]

theorem insAt_delAt_before (S t : List Char) (pi pd l : Nat) (hx : pi ≤ pd)
    (hd : pd + l ≤ S.length) :
    insAt pi t (delAt pd l S)
      = S.take pi ++ t ++ ((S.take pd).drop pi ++ S.drop (pd + l)) := by
  unfold insAt delAt
  have h1 : pi ≤ (S.take pd).length := by
    simp [List.length_take]; omega
  rw [List.take_append_of_le_length h1, List.drop_append_of_le_length h1]
  rw [List.take_take, Nat.min_eq_left hx]

theorem delAt_insAt_after (S t : List Char) (pi pd l : Nat) (hx : pd + l ≤ pi)
    (hi : pi ≤ S.length) :
    delAt pd l (insAt pi t S)
      = S.take pd ++ ((S.take pi).drop (pd + l) ++ (t ++ S.drop pi)) := by
  unfold insAt delAt
  have h1 : pd ≤ (S.take pi).length := by
    simp [List.length_take]; omega
  have h2 : pd + l ≤ (S.take pi).length := by
    simp [List.length_take]; omega
  rw [show S.take pi ++ t ++ S.drop pi = S.take pi ++ (t ++ S.drop pi) by
    simp [List.append_assoc]]
  rw [List.take_append_of_le_length h1, List.drop_append_of_le_length h2]
  rw [List.take_take, Nat.min_eq_left (by omega)]

theorem insAt_delAt_after (S t : List Char) (pi pd l : Nat) (hx : pd + l ≤ pi)
    (hi : pi ≤ S.length) :
    insAt (pi - l) t (delAt pd l S)
      = S.take pd ++ ((S.take pi).drop (pd + l) ++ (t ++ S.drop pi)) := by
  unfold insAt delAt
  have hlen : (S.take pd).length = pd := by
    simp [List.length_take]; omega
  rw [show pi - l = (S.take pd).length + (pi - (pd + l)) by omega]
  rw [List.take_append, List.drop_append]
  rw [List.take_drop, List.drop_drop]
  rw [show pd + l + (pi - (pd + l)) = pi by omega]
  simp [List.append_assoc]

theorem delAt_delAt_sep1 (S : List Char) (q m p l : Nat) (hqp : q + m ≤ p)
    (hp : p + l ≤ S.length) :
    delAt q m (delAt p l S)
      = S.take q ++ ((S.take p).drop (q + m) ++ S.drop (p + l)) := by
  unfold delAt
  have h1 : q ≤ (S.take p).length := by
    simp [List.length_take]; omega
  have h2 : q + m ≤ (S.take p).length := by
    simp [List.length_take]; omega
  rw [List.take_append_of_le_length h1, List.drop_append_of_le_length h2]
  rw [List.take_take, Nat.min_eq_left (by omega)]

theorem delAt_delAt_sep2 (S : List Char) (q m p l : Nat) (hqp : q + m ≤ p)
    (hp : p + l ≤ S.length) :
    delAt (p - m) l (delAt q m S)
      = S.take q ++ ((S.take p).drop (q + m) ++ S.drop (p + l)) := by
  unfold delAt
  have hlen : (S.take q).length = q := by
    simp [List.length_take]; omega
  rw [show p - m = (S.take q).length + (p - (q + m)) by omega]
  rw [List.take_append]
  rw [show (S.take q).length + (p - (q + m)) + l
        = (S.take q).length + ((p + l) - (q + m)) by omega]
  rw [List.drop_append]
  rw [List.take_drop, List.drop_drop]
  rw [show q + m + (p - (q + m)) = p by omega]
  rw [show q + m + ((p + l) - (q + m)) = p + l by omega]
  rw [List.append_assoc]

theorem delAt_delAt_same (S : List Char) (p l v : Nat) (hp : p ≤ S.length) :
    delAt p v (delAt p l S) = S.take p ++ S.drop (p + l + v) := by
  unfold delAt
  have hlen : (S.take p).length = p := by
    simp [List.length_take]; omega
  have h1 : p ≤ (S.take p).length := by omega
  rw [List.take_append_of_le_length h1]
  rw [show p + v = (S.take p).length + v by omega]
  rw [List.drop_append]
  rw [List.take_take, Nat.min_self, List.drop_drop]

theorem delAt_delAt_within (S : List Char) (p1 p2 l2 : Nat) (hx : p1 ≤ p2)
    (hp : p2 + l2 ≤ S.length) :
    delAt p1 (p2 - p1) (delAt p2 l2 S) = S.take p1 ++ S.drop (p2 + l2) := by
  unfold delAt
  have h1 : p1 ≤ (S.take p2).length := by
    simp [List.length_take]; omega
  have hlen : (S.take p2).length = p2 := by
    simp [List.length_take]; omega
  rw [List.take_append_of_le_length h1]
  rw [show p1 + (p2 - p1) = (S.take p2).length + 0 by omega]
  rw [List.drop_append]
  rw [List.take_take, Nat.min_eq_left hx]
  simp

theorem applyContent_ins (S t cid : List Char) (P : Nat) (len v : Int)
    (h : P ≤ S.length) :
    applyContent S { opType := .OpInsert, Position := (P : Int), Content := t,
                     Length := len, ClientID := cid, Version := v }
      = .ok (insAt P t S) := by
  simp only [applyContent]
  rw [if_neg (by omega)]
  simp [insAt]

theorem applyContent_del (S t cid : List Char) (P L : Nat) (v : Int)
    (h : P + L ≤ S.length) :
    applyContent S { opType := .OpDelete, Position := (P : Int), Content := t,
                     Length := (L : Int), ClientID := cid, Version := v }
      = .ok (delAt P L S) := by
  simp only [applyContent]
  rw [if_neg (by omega)]
  simp only [delAt, Except.ok.injEq]
  rw [show ((P : Int) + (L : Int)).toNat = P + L by omega]
  simp

theorem applyContent_ret (S : List Char) (op : Operation)
    (h : op.opType = .OpRetain) : applyContent S op = .ok S := by
  simp [applyContent, h]

theorem goStrLt_asymm (a b : List Char) (h : goStrLt a b = true) :
    goStrLt b a = false := by
  induction a generalizing b with
  | nil =>
    cases b with
    | nil => simp [goStrLt] at h
    | cons y ys => simp [goStrLt]
  | cons x xs ih =>
    cases b with
    | nil => simp [goStrLt] at h
    | cons y ys =>
      simp only [goStrLt] at h ⊢
      by_cases hxy : x < y
      · have : ¬ y < x := lt_asymm hxy
        simp [hxy, this]
      · by_cases hyx : y < x
        · simp [hxy, hyx] at h
        · simp [hxy, hyx] at h ⊢
          exact ih ys h

theorem goStrLt_eq_of_both_false (a b : List Char) (h1 : goStrLt a b = false)
    (h2 : goStrLt b a = false) : a = b := by
  induction a generalizing b with
  | nil =>
    cases b with
    | nil => rfl
    | cons y ys => simp [goStrLt] at h1
  | cons x xs ih =>
    cases b with
    | nil => simp [goStrLt] at h2
    | cons y ys =>
      simp only [goStrLt] at h1 h2
      by_cases hxy : x < y
      · simp [hxy] at h1
      · by_cases hyx : y < x
        · simp [hxy, hyx] at h2
        · simp [hxy, hyx] at h1 h2
          have hxe : x = y := le_antisymm (le_of_not_lt hyx) (le_of_not_lt hxy)
          rw [hxe, ih ys h1 h2]

theorem firstDiff_some_spec (S T : List Char) (i : Nat)
    (h : firstDiff S T = some i) :
    i < S.length ∧ i < T.length ∧ S[i]? ≠ T[i]? ∧
      ∀ j, j < i → S[j]? = T[j]? := by
  induction S generalizing T i with
  | nil => simp [firstDiff] at h
  | cons x xs ih =>
    cases T with
    | nil => simp [firstDiff] at h
    | cons y ys =>
      simp only [firstDiff] at h
      by_cases hxy : x = y
      · simp [hxy] at h
        cases hfd : firstDiff xs ys with
        | none => rw [hfd] at h; simp at h
        | some j =>
          rw [hfd] at h
          simp at h
          obtain ⟨hj1, hj2, hj3, hj4⟩ := ih ys j hfd
          refine ⟨by simp; omega, by simp; omega, ?_, ?_⟩
          · rw [← h]
            simpa using hj3
          · intro k hk
            rw [← h] at hk
            cases k with
            | zero => simp [hxy]
            | succ k' => simpa using hj4 k' (by omega)
      · simp [hxy] at h
        subst h
        refine ⟨by simp, by simp, by simpa using hxy, ?_⟩
        intro j hj
        omega

theorem firstDiff_none_spec (S T : List Char) (h : firstDiff S T = none) :
    ∀ j, j < S.length → j < T.length → S[j]? = T[j]? := by
  induction S generalizing T with
  | nil => intro j hj _; simp at hj
  | cons x xs ih =>
    cases T with
    | nil => intro j _ hj; simp at hj
    | cons y ys =>
      simp only [firstDiff] at h
      by_cases hxy : x = y
      · simp [hxy] at h
        intro j hj1 hj2
        cases hfd : firstDiff xs ys with
        | none =>
          cases j with
          | zero => simp [hxy]
          | succ j' =>
            simp only [List.getElem?_cons_succ]
            exact ih ys hfd j' (by simpa using hj1) (by simpa using hj2)
        | some k => rw [hfd] at h; simp at h
      · simp [hxy] at h

theorem take_eq_of_agree (S T : List Char) (i : Nat)
    (h : ∀ j, j < i → S[j]? = T[j]?) : S.take i = T.take i := by
  induction S generalizing T i with
  | nil =>
    cases T with
    | nil => rfl
    | cons y ys =>
      cases i with
      | zero => rfl
      | succ i' =>
        have := h 0 (by omega)
        simp at this
  | cons x xs ih =>
    cases T with
    | nil =>
      cases i with
      | zero => rfl
      | succ i' =>
        have := h 0 (by omega)
        simp at this
    | cons y ys =>
      cases i with
      | zero => rfl
      | succ i' =>
        have h0 := h 0 (by omega)
        simp at h0
        simp only [List.take_succ_cons, h0]
        rw [ih ys i' (fun j hj => by simpa using h (j + 1) (by omega))]

theorem chain_ins_ins (S ca ida cb idb : List Char) (Pa Pb : Nat) (la va lb vb : Int)
    (hab : Pa ≤ Pb) (hb : Pb ≤ S.length) :
    (applyContent S ⟨.OpInsert, (Pa : Int), ca, la, ida, va⟩).bind
        (fun s => applyContent s ⟨.OpInsert, (Pb : Int) + (ca.length : Int), cb, lb, idb, vb⟩)
      = (applyContent S ⟨.OpInsert, (Pb : Int), cb, lb, idb, vb⟩).bind
        (fun s => applyContent s ⟨.OpInsert, (Pa : Int), ca, la, ida, va⟩) := by
  rw [applyContent_ins S ca ida Pa la va (by omega)]
  rw [applyContent_ins S cb idb Pb lb vb (by omega)]
  simp only [Except.bind]
  rw [show ((Pb : Int) + (ca.length : Int)) = ((Pb + ca.length : Nat) : Int) by push_cast; ring]
  rw [applyContent_ins (insAt Pa ca S) cb idb (Pb + ca.length) lb vb
    (by rw [length_insAt Pa ca S (by omega)]; omega)]
  rw [applyContent_ins (insAt Pb cb S) ca ida Pa la va
    (by rw [length_insAt Pb cb S hb]; omega)]
  rw [insAt_insAt_right S ca cb Pa Pb hab hb, insAt_insAt_left S ca cb Pa Pb hab hb]

theorem chain_ins_del (S ci idi cd idd : List Char) (Pi Pd L : Nat) (li vi vd : Int)
    (hx : Pi ≤ Pd) (hd : Pd + L ≤ S.length) :
    (applyContent S ⟨.OpInsert, (Pi : Int), ci, li, idi, vi⟩).bind
        (fun s => applyContent s ⟨.OpDelete, (Pd : Int) + (ci.length : Int), cd, (L : Int), idd, vd⟩)
      = (applyContent S ⟨.OpDelete, (Pd : Int), cd, (L : Int), idd, vd⟩).bind
        (fun s => applyContent s ⟨.OpInsert, (Pi : Int), ci, li, idi, vi⟩) := by
  rw [applyContent_ins S ci idi Pi li vi (by omega)]
  rw [applyContent_del S cd idd Pd L vd hd]
  simp only [Except.bind]
  rw [show ((Pd : Int) + (ci.length : Int)) = ((Pd + ci.length : Nat) : Int) by push_cast; ring]
  rw [applyContent_del (insAt Pi ci S) cd idd (Pd + ci.length) L vd
    (by rw [length_insAt Pi ci S (by omega)]; omega)]
  rw [applyContent_ins (delAt Pd L S) ci idi Pi li vi
    (by rw [length_delAt Pd L S hd]; omega)]
  rw [delAt_insAt_before S ci Pi Pd L hx hd, insAt_delAt_before S ci Pi Pd L hx hd]

theorem chain_del_ins (S ci idi cd idd : List Char) (Pi Pd L : Nat) (li vi vd : Int)
    (hx : Pd + L ≤ Pi) (hi : Pi ≤ S.length) :
    (applyContent S ⟨.OpInsert, (Pi : Int), ci, li, idi, vi⟩).bind
        (fun s => applyContent s ⟨.OpDelete, (Pd : Int), cd, (L : Int), idd, vd⟩)
      = (applyContent S ⟨.OpDelete, (Pd : Int), cd, (L : Int), idd, vd⟩).bind
        (fun s => applyContent s ⟨.OpInsert, (Pi : Int) - (L : Int), ci, li, idi, vi⟩) := by
  rw [applyContent_ins S ci idi Pi li vi hi]
  rw [applyContent_del S cd idd Pd L vd (by omega)]
  simp only [Except.bind]
  rw [show ((Pi : Int) - (L : Int)) = ((Pi - L : Nat) : Int) by omega]
  rw [applyContent_del (insAt Pi ci S) cd idd Pd L vd
    (by rw [length_insAt Pi ci S hi]; omega)]
  rw [applyContent_ins (delAt Pd L S) ci idi (Pi - L) li vi
    (by rw [length_delAt Pd L S (by omega)]; omega)]
  rw [delAt_insAt_after S ci Pi Pd L hx hi, insAt_delAt_after S ci Pi Pd L hx hi]

theorem chain_del_del_disjoint (S c1 id1 c2 id2 : List Char) (P1 L1 P2 L2 : Nat)
    (v1 v2 : Int) (hx : P1 + L1 ≤ P2) (h2 : P2 + L2 ≤ S.length) :
    (applyContent S ⟨.OpDelete, (P1 : Int), c1, (L1 : Int), id1, v1⟩).bind
        (fun s => applyContent s ⟨.OpDelete, (P2 : Int) - (L1 : Int), c2, (L2 : Int), id2, v2⟩)
      = (applyContent S ⟨.OpDelete, (P2 : Int), c2, (L2 : Int), id2, v2⟩).bind
        (fun s => applyContent s ⟨.OpDelete, (P1 : Int), c1, (L1 : Int), id1, v1⟩) := by
  rw [applyContent_del S c1 id1 P1 L1 v1 (by omega)]
  rw [applyContent_del S c2 id2 P2 L2 v2 h2]
  simp only [Except.bind]
  rw [show ((P2 : Int) - (L1 : Int)) = ((P2 - L1 : Nat) : Int) by omega]
  rw [applyContent_del (delAt P1 L1 S) c2 id2 (P2 - L1) L2 v2
    (by rw [length_delAt P1 L1 S (by omega)]; omega)]
  rw [applyContent_del (delAt P2 L2 S) c1 id1 P1 L1 v1
    (by rw [length_delAt P2 L2 S h2]; omega)]
  rw [show P2 - L1 = P2 - L1 by rfl]
  have e1 := delAt_delAt_sep2 S P1 L1 P2 L2 hx h2
  have e2 := delAt_delAt_sep1 S P1 L1 P2 L2 hx h2
  rw [e1, e2]

theorem chain_del_del_overlap (S c1 id1 c2 id2 : List Char) (P1 L1 P2 L2 : Nat)
    (v1 v2 : Int) (ho1 : P1 ≤ P2) (ho2 : P2 ≤ P1 + L1) (ho3 : P1 + L1 ≤ P2 + L2)
    (hS : P2 + L2 ≤ S.length) :
    (applyContent S ⟨.OpDelete, (P1 : Int), c1, (L1 : Int), id1, v1⟩).bind
        (fun s => applyContent s
          ⟨.OpDelete, (P1 : Int), c2, ((P2 + L2 - (P1 + L1) : Nat) : Int), id2, v2⟩)
      = (applyContent S ⟨.OpDelete, (P2 : Int), c2, (L2 : Int), id2, v2⟩).bind
        (fun s => applyContent s
          ⟨.OpDelete, (P1 : Int), c1, ((P2 - P1 : Nat) : Int), id1, v1⟩) := by
  rw [applyContent_del S c1 id1 P1 L1 v1 (by omega)]
  rw [applyContent_del S c2 id2 P2 L2 v2 hS]
  simp only [Except.bind]
  rw [applyContent_del (delAt P1 L1 S) c2 id2 P1 (P2 + L2 - (P1 + L1)) v2
    (by rw [length_delAt P1 L1 S (by omega)]; omega)]
  rw [applyContent_del (delAt P2 L2 S) c1 id1 P1 (P2 - P1) v1
    (by rw [length_delAt P2 L2 S hS]; omega)]
  rw [delAt_delAt_same S P1 L1 (P2 + L2 - (P1 + L1)) (by omega)]
  rw [delAt_delAt_within S P1 P2 L2 ho1 hS]
  rw [show P1 + L1 + (P2 + L2 - (P1 + L1)) = P2 + L2 by omega]

theorem del_shift_one (S : List Char) (p l : Nat) (hl : p + l < S.length)
    (h : S[p]? = S[p + l]?) :
    S.take (p + 1) ++ S.drop (p + 1 + l) = S.take p ++ S.drop (p + l) := by
  have hp : p < S.length := by omega
  have h1 : S[p]? = some S[p] := List.getElem?_eq_getElem hp
  have h2 : S[p + l]? = some S[p + l] := List.getElem?_eq_getElem hl
  rw [h1, h2] at h
  have he : S[p] = S[p + l] := by simpa using h
  rw [← List.take_concat_get' S p hp]
  rw [List.drop_eq_getElem_cons hl]
  rw [List.append_assoc, List.singleton_append, he]
  rw [show p + 1 + l = p + l + 1 by omega]

theorem del_shift (S : List Char) (p n l : Nat) (hil : p + n + l ≤ S.length)
    (hagree : ∀ j, p ≤ j → j < p + n → S[j]? = S[j + l]?) :
    S.take (p + n) ++ S.drop (p + n + l) = S.take p ++ S.drop (p + l) := by
  induction n generalizing p with
  | zero => rfl
  | succ n ih =>
    have e1 : p + (n + 1) = (p + 1) + n := by omega
    rw [e1]
    rw [ih (p + 1) (by omega) (fun j hj1 hj2 => hagree j (by omega) (by omega))]
    exact del_shift_one S p l (by omega) (hagree p (le_refl p) (by omega))

theorem prefix_agree (S rest T : List Char) (p : Nat) (hp : p ≤ S.length)
    (hT : T = S.take p ++ rest) :
    ∀ j, j < p → T[j]? = S[j]? := by
  intro j hj
  subst hT
  rw [List.getElem?_append_left (by simp [List.length_take]; omega)]
  exact List.getElem?_take_of_lt hj

/-- Claim C10: for every pair of contents, the operation produced by
`GenerateOperation` applies to the old content without error (a returned
Insert has position within `[0, len(old)]`, a returned Delete stays inside
the old content) and equal-length inputs yield a Retain. -/
theorem C10_generated_op_applies (oldContent newContent : List Char)
    (position : Int) (clientID : List Char) :
    (∃ r, applyContent oldContent (GenerateOperation oldContent newContent position clientID)
            = .ok r) ∧
    (oldContent.length = newContent.length →
       (GenerateOperation oldContent newContent position clientID).opType = .OpRetain) := by
  constructor
  · simp only [GenerateOperation]
    by_cases hgt : newContent.length > oldContent.length
    · rw [if_pos hgt]
      cases hfd : firstDiff oldContent newContent with
      | some i =>
          obtain ⟨hi1, hi2, -, -⟩ := firstDiff_some_spec _ _ _ hfd
          exact ⟨_, applyContent_ins oldContent _ clientID i 0 0 (by omega)⟩
      | none =>
          exact ⟨_, applyContent_ins oldContent _ clientID oldContent.length 0 0 (by omega)⟩
    · rw [if_neg hgt]
      by_cases hlt : oldContent.length > newContent.length
      · rw [if_pos hlt]
        cases hfd : firstDiff oldContent newContent with
        | some i =>
            obtain ⟨hi1, hi2, -, -⟩ := firstDiff_some_spec _ _ _ hfd
            exact ⟨_, applyContent_del oldContent [] clientID i
              (oldContent.length - newContent.length) 0 (by omega)⟩
        | none =>
            exact ⟨_, applyContent_del oldContent [] clientID newContent.length
              (oldContent.length - newContent.length) 0 (by omega)⟩
      · rw [if_neg hlt]
        exact ⟨_, applyContent_ret _ _ rfl⟩
  · intro h
    simp only [GenerateOperation]
    rw [if_neg (by omega), if_neg (by omega)]

/-- Claim C10 witness: a concrete insertion diff applies cleanly, and an
equal-length change yields a Retain. -/
theorem C10_witness :
    (∃ r, applyContent (str "ab") (GenerateOperation (str "ab") (str "aXb") 0 (str "c"))
            = .ok r) ∧
    (GenerateOperation (str "xy") (str "xz") 0 (str "c")).opType = .OpRetain :=
  ⟨(C10_generated_op_applies (str "ab") (str "aXb") 0 (str "c")).1,
   (C10_generated_op_applies (str "xy") (str "xz") 0 (str "c")).2 (by decide)⟩

/-- Claim C7: when `T` differs from `S` by exactly one contiguous nonempty
insertion or deletion, applying `GenerateOperation S T _ cid` to `S`
yields exactly `T`. -/
theorem C7_diff_roundtrip (S T clientID : List Char) (position : Int)
    (h : (∃ p t, t ≠ [] ∧ p ≤ S.length ∧ T = S.take p ++ t ++ S.drop p) ∨
         (∃ p l, 0 < l ∧ p + l ≤ S.length ∧ T = S.take p ++ S.drop (p + l))) :
    applyContent S (GenerateOperation S T position clientID) = .ok T := by
  rcases h with ⟨p, t, ht, hp, hT⟩ | ⟨p, l, hl, hp, hT⟩
  · -- one contiguous insertion
    have hlenT : T.length = S.length + t.length := by
      subst hT; simp [List.length_take, List.length_drop]; omega
    have htl : 0 < t.length := List.length_pos.mpr ht
    simp only [GenerateOperation]
    rw [if_pos (by omega)]
    cases hfd : firstDiff S T with
    | some i =>
        obtain ⟨hi1, hi2, hi3, hi4⟩ := firstDiff_some_spec _ _ _ hfd
        have hip : p ≤ i := by
          by_contra hni
          exact hi3 ((prefix_agree S (t ++ S.drop p) T p hp
            (by rw [hT, List.append_assoc]) i (by omega)).symm)
        rw [applyContent_ins S _ clientID i 0 0 (by omega)]
        have hk : T.length - S.length = t.length := by omega
        rw [hk]
        have fact1 : S.take i = T.take i := take_eq_of_agree S T i hi4
        have hlenpt : (S.take p ++ t).length = p + t.length := by
          simp [List.length_take]; omega
        have fact2 : S.drop i = T.drop (i + t.length) := by
          rw [hT, show i + t.length = (S.take p ++ t).length + (i - p) by omega]
          rw [List.drop_append, List.drop_drop]
          rw [show p + (i - p) = i by omega]
        unfold insAt
        rw [fact1, fact2, List.append_assoc]
        rw [show (T.drop i).take t.length ++ T.drop (i + t.length)
              = (T.drop i).take t.length ++ (T.drop i).drop t.length by
            rw [List.drop_drop]]
        rw [List.take_append_drop, List.take_append_drop]
    | none =>
        have hagree := firstDiff_none_spec S T hfd
        have hS : S = T.take S.length := by
          have h2 := take_eq_of_agree S T S.length (fun j hj => hagree j hj (by omega))
          rw [List.take_length] at h2
          exact h2
        rw [applyContent_ins S _ clientID S.length 0 0 (le_refl _)]
        unfold insAt
        rw [List.drop_length, List.append_nil, List.take_length]
        nth_rewrite 1 [hS]
        rw [List.take_append_drop]
  · -- one contiguous deletion
    have hlenT : T.length = S.length - l := by
      subst hT; simp [List.length_take, List.length_drop]; omega
    simp only [GenerateOperation]
    rw [if_neg (by omega), if_pos (by omega)]
    cases hfd : firstDiff S T with
    | some i =>
        obtain ⟨hi1, hi2, hi3, hi4⟩ := firstDiff_some_spec _ _ _ hfd
        have hip : p ≤ i := by
          by_contra hni
          exact hi3 ((prefix_agree S (S.drop (p + l)) T p (by omega) hT i (by omega)).symm)
        rw [applyContent_del S [] clientID i (S.length - T.length) 0 (by omega)]
        rw [show S.length - T.length = l by omega]
        have hTright : ∀ j, p ≤ j → j < T.length → T[j]? = S[j + l]? := by
          intro j hj1 hj2
          rw [hT]
          rw [List.getElem?_append_right (by simp [List.length_take]; omega)]
          rw [List.getElem?_drop]
          rw [show p + l + (j - (S.take p).length) = j + l by
            simp [List.length_take]; omega]
        have hagree2 : ∀ j, p ≤ j → j < i → S[j]? = S[j + l]? := by
          intro j hj1 hj2
          rw [hi4 j hj2]
          exact hTright j hj1 (by omega)
        unfold delAt
        rw [show i = p + (i - p) by omega] at hagree2 ⊢
        rw [del_shift S p (i - p) l (by omega) hagree2]
        rw [← hT]
    | none =>
        have hagree := firstDiff_none_spec S T hfd
        have hTS : T = S.take T.length := by
          have h2 := take_eq_of_agree S T T.length (fun j hj => hagree j (by omega) hj)
          rw [List.take_length] at h2
          exact h2.symm
        rw [applyContent_del S [] clientID T.length (S.length - T.length) 0 (by omega)]
        unfold delAt
        rw [show T.length + (S.length - T.length) = S.length by omega]
        rw [List.drop_length, List.append_nil]
        exact congrArg Except.ok hTS.symm

/-- Claim C7 witness: a concrete single-insertion pair and the round-trip
equality at it. -/
theorem C7_witness :
    applyContent (str "ac") (GenerateOperation (str "ac") (str "abc") 0 (str "u"))
      = .ok (str "abc") :=
  C7_diff_roundtrip (str "ac") (str "abc") (str "u") 0
    (Or.inl ⟨1, str "b", by decide, by decide, by decide⟩)

/-- Claim C9: the hub's per-document fan-out never includes a client whose
identifier equals the `clientId` carried in a `text_update`,
`cursor_position`, `selection_change` or `typing_*` frame, so no client
receives its own echo of those frame types. -/
theorem C9_no_echo (docClients allClients : List HubClient) (msg : HubMessage)
    (c : HubClient)
    (hty : msg.msgType = str "text_update" ∨ msg.msgType = str "cursor_position" ∨
           msg.msgType = str "selection_change" ∨ msg.msgType = str "typing_start" ∨
           msg.msgType = str "typing_stop")
    (hc : c ∈ handleBroadcast docClients allClients msg) :
    c.id ≠ msg.clientID := by
  unfold handleBroadcast broadcastToDocument at hc
  split_ifs at hc with h1 h2 h3
  · simp only [List.mem_filter, decide_eq_true_eq] at hc
    exact hc.2
  · simp only [List.mem_filter, decide_eq_true_eq] at hc
    exact hc.2
  · simp only [List.mem_filter, decide_eq_true_eq] at hc
    exact hc.2
  · exact absurd hc (List.not_mem_nil c)

/-- Claim C9 witness: at a concrete two-client document, the sender is not
among the recipients of its own `text_update`. -/
theorem C9_witness :
    ({ id := str "b" } : HubClient).id ≠
      ({ msgType := str "text_update", clientID := str "a", documentID := str "d" } :
        HubMessage).clientID :=
  C9_no_echo [{ id := str "a" }, { id := str "b" }] [] _ { id := str "b" }
    (Or.inl rfl) (by decide)

/-- Claim C3 counterexample: applying a Retain to a fresh document succeeds
but increments the version (the Go switch has no Retain case and
`d.Version++` runs unconditionally), contradicting the claim that a Retain
apply leaves the version unchanged. -/
theorem C3_counterexample :
    (NewDocument.apply { opType := .OpRetain }).2 = none ∧
    ¬ (NewDocument.apply { opType := .OpRetain }).1.Version = NewDocument.Version :=
  ⟨rfl, by decide⟩

theorem apply_ok_facts (d : Document) (op : Operation) (d' : Document)
    (h : d.apply op = (d', none)) :
    d'.Version = d.Version + 1 ∧ d'.AcknowledgedOps = d.AcknowledgedOps ++ [op] ∧
      applyContent d.Content op = .ok d'.Content := by
  unfold Document.apply at h
  cases hac : applyContent d.Content op with
  | error e => rw [hac] at h; simp at h
  | ok c =>
    rw [hac] at h
    simp only [Prod.mk.injEq] at h
    obtain ⟨h1, -⟩ := h
    subst h1
    exact ⟨rfl, rfl, rfl⟩

theorem applyAllOk_version (ops : List Operation) (d d' : Document)
    (h : applyAllOk d ops = some d') :
    d'.Version = d.Version + (ops.length : Int) := by
  induction ops generalizing d with
  | nil =>
    simp only [applyAllOk, Option.some.injEq] at h
    subst h
    simp
  | cons op ops ih =>
    simp only [applyAllOk] at h
    cases hap : d.apply op with
    | mk d2 err =>
      rw [hap] at h
      cases err with
      | none =>
        have hv := (apply_ok_facts d op d2 hap).1
        have := ih d2 h
        simp only [List.length_cons]
        push_cast
        omega
      | some e => simp at h

/-- Claim C3 (amended): the version counts every successful `Apply`, Retain
included — a fresh document has version 0, every successful apply (of any
type) increments the version by exactly one, a successful Retain apply
leaves the content unchanged, and after any all-successful sequence from a
fresh document the version equals the total number of operations applied. -/
theorem C3_version_counts_every_apply :
    NewDocument.Version = 0 ∧
    (∀ (d : Document) (op : Operation) (d' : Document),
        d.apply op = (d', none) → d'.Version = d.Version + 1) ∧
    (∀ (d : Document) (op : Operation) (d' : Document),
        op.opType = .OpRetain → d.apply op = (d', none) → d'.Content = d.Content) ∧
    (∀ (ops : List Operation) (d' : Document),
        applyAllOk NewDocument ops = some d' → d'.Version = (ops.length : Int)) := by
  refine ⟨rfl, ?_, ?_, ?_⟩
  · intro d op d' h
    exact (apply_ok_facts d op d' h).1
  · intro d op d' hr h
    have h3 := (apply_ok_facts d op d' h).2.2
    rw [applyContent_ret d.Content op hr] at h3
    simpa using h3.symm
  · intro ops d' h
    have h2 := applyAllOk_version ops NewDocument d' h
    rw [show NewDocument.Version = 0 from rfl] at h2
    simpa using h2

/-- Claim C3 witness: concrete evaluations through the amended theorem — a
Retain apply bumps the version by one, keeps the content, and a singleton
Retain history gives version 1 = its length. -/
theorem C3_witness :
    (NewDocument.apply { opType := .OpRetain }).1.Version = NewDocument.Version + 1 ∧
    (NewDocument.apply { opType := .OpRetain }).1.Content = NewDocument.Content ∧
    (NewDocument.apply { opType := .OpRetain }).1.Version
      = (([ { opType := .OpRetain } ] : List Operation).length : Int) :=
  ⟨C3_version_counts_every_apply.2.1 NewDocument { opType := .OpRetain } _ (by decide),
   C3_version_counts_every_apply.2.2.1 NewDocument { opType := .OpRetain } _ rfl (by decide),
   C3_version_counts_every_apply.2.2.2 [ { opType := .OpRetain } ] _ (by decide)⟩

/-- Claim C5 counterexample: for the overlapping valid deletes
`Del(0,2)` and `Del(1,2)` on base "abc", `Transform` changes the leading
delete's length (2 becomes 1), contradicting the claim that only the
trailing delete's length is reduced. -/
theorem C5_counterexample :
    validOn { opType := .OpDelete, Position := 0, Length := 2, ClientID := str "a" }
      (str "abc") ∧
    validOn { opType := .OpDelete, Position := 1, Length := 2, ClientID := str "b" }
      (str "abc") ∧
    ¬ (Transform { opType := .OpDelete, Position := 0, Length := 2, ClientID := str "a" }
                 { opType := .OpDelete, Position := 1, Length := 2, ClientID := str "b" }).1.Length
        = 2 :=
  ⟨by decide, by decide, by decide⟩

/-- Claim C5 (amended): for overlapping deletes the code subtracts
`overlap` from BOTH deletes' lengths and aligns the trailing delete's
position to the leading one's; the `overlap` it uses is
`end(leading) - pos(trailing)`, which coincides with
`min(end_a, end_b) - max(pos_a, pos_b)` exactly when the trailing delete
ends no earlier than the leading one. -/
theorem C5_overlap_subtracts_both (a b : Operation)
    (ha : a.opType = .OpDelete) (hb : b.opType = .OpDelete)
    (h1 : b.Position < a.Position + a.Length)
    (h2 : a.Position < b.Position + b.Length) :
    (a.Position < b.Position →
       Transform a b
         = ({ a with Length := a.Length - (a.Position + a.Length - b.Position) },
            { b with Position := a.Position,
                     Length := b.Length - (a.Position + a.Length - b.Position) })) ∧
    (b.Position ≤ a.Position →
       Transform a b
         = ({ a with Position := b.Position,
                     Length := a.Length - (b.Position + b.Length - a.Position) },
            { b with Length := b.Length - (b.Position + b.Length - a.Position) })) ∧
    (a.Position < b.Position → a.Position + a.Length ≤ b.Position + b.Length →
       a.Position + a.Length - b.Position
         = min (a.Position + a.Length) (b.Position + b.Length)
             - max a.Position b.Position) ∧
    (b.Position ≤ a.Position → b.Position + b.Length ≤ a.Position + a.Length →
       b.Position + b.Length - a.Position
         = min (a.Position + a.Length) (b.Position + b.Length)
             - max a.Position b.Position) := by
  rcases a with ⟨ta, pa, ca, la, ida, va⟩
  rcases b with ⟨tb, pb, cb, lb, idb, vb⟩
  dsimp only at ha hb h1 h2
  subst ha hb
  refine ⟨?_, ?_, ?_, ?_⟩
  · intro hlt
    dsimp only at hlt
    simp only [Transform, transformDeleteDelete]
    rw [if_neg (by omega), if_neg (by omega), if_pos hlt]
  · intro hge
    dsimp only at hge
    simp only [Transform, transformDeleteDelete]
    rw [if_neg (by omega), if_neg (by omega), if_neg (by omega)]
  · intro hlt hle
    dsimp only at hlt hle ⊢
    omega
  · intro hge hle
    dsimp only at hge hle ⊢
    omega

/-- Claim C5 witness: the amended behaviour at the counterexample's input. -/
theorem C5_witness :
    Transform { opType := .OpDelete, Position := 0, Length := 2, ClientID := str "a" }
              { opType := .OpDelete, Position := 1, Length := 2, ClientID := str "b" }
      = ({ opType := .OpDelete, Position := 0, Length := 1, ClientID := str "a" },
         { opType := .OpDelete, Position := 0, Length := 1, ClientID := str "b" }) :=
  ((C5_overlap_subtracts_both
      { opType := .OpDelete, Position := 0, Length := 2, ClientID := str "a" }
      { opType := .OpDelete, Position := 1, Length := 2, ClientID := str "b" }
      rfl rfl (by decide) (by decide)).1 (by decide)).trans (by decide)

theorem transformAgainstHistory_of_no_pending (d : Document) (h : d.PendingOps = [])
    (op : Operation) : d.TransformAgainstHistory op = op := by
  unfold Document.TransformAgainstHistory
  rw [h]
  rfl

/-- Claim C2 (code evaluation at the failing input): after client "b"'s
Insert "A"@0 was applied (version 1, the op recorded in
`AcknowledgedOps`), `PendingOps` is still empty — nothing ever appends to
it — so `TransformAgainstHistory` is the identity; a behind-version update
from client "c" implying Insert "Z"@0 is applied untransformed, yielding
"ZA", while transforming it against the applied history entry (as the
claim requires) would have applied Insert "Z"@1 and yielded "AZ". -/
theorem C2_rebase_never_fires :
    c2mgr.document.Version = 1 ∧
    c2mgr.document.AcknowledgedOps
      = [{ opType := .OpInsert, Position := 0, Content := ['A'], ClientID := ['b'] }] ∧
    c2mgr.document.PendingOps = [] ∧
    (∀ op : Operation, c2mgr.document.TransformAgainstHistory op = op) ∧
    (c2mgr.ProcessTextUpdate ['c'] (str "ZA") 0).1.1 = str "ZA" ∧
    applyContent c2mgr.document.Content
        (Transform (GenerateOperation c2mgr.lastContent (str "ZA") 0 ['c'])
          { opType := .OpInsert, Position := 0, Content := ['A'], ClientID := ['b'] }).1
      = .ok (str "AZ") := by
  refine ⟨by decide, by decide, by decide, ?_, by decide, by rfl⟩
  exact fun op => transformAgainstHistory_of_no_pending _ (by decide) op

theorem apply_error_pair (d : Document) (op : Operation) (e : ApplyError)
    (h : (d.apply op).2 = some e) : d.apply op = (d, some e) := by
  unfold Document.apply at h ⊢
  cases hac : applyContent d.Content op with
  | error e2 =>
    rw [hac] at h
    simp only at h
    rw [Option.some.injEq] at h
    rw [h]
  | ok c => rw [hac] at h; simp at h

/-- Claim C8: an Insert with position outside `[0, len]` or a Delete whose
range leaves the content makes `Apply` return an error with the document
(content, version, history) unchanged, and when the op that
`ProcessTextUpdate` applies fails, the error is surfaced and the manager
(document and last snapshot) is unchanged. -/
theorem C8_apply_error_no_mutation :
    (∀ (d : Document) (op : Operation),
        ((op.opType = .OpInsert ∧
            (op.Position < 0 ∨ op.Position > (d.Content.length : Int))) ∨
         (op.opType = .OpDelete ∧
            (op.Position < 0 ∨ op.Position + op.Length > (d.Content.length : Int)))) →
        (d.apply op).1 = d ∧ ((d.apply op).2).isSome) ∧
    (∀ (m : OTManager) (clientID newContent : List Char) (clientVersion : Int)
        (e : ApplyError),
        (m.document.apply (m.processedOp clientID newContent clientVersion)).2 = some e →
        m.ProcessTextUpdate clientID newContent clientVersion
          = ((m.document.Content, m.document.Version, some e), m)) := by
  constructor
  · intro d op h
    unfold Document.apply
    cases hac : applyContent d.Content op with
    | error e => simp
    | ok c =>
      exfalso
      unfold applyContent at hac
      rcases h with ⟨hty, hcond⟩ | ⟨hty, hcond⟩ <;> rw [hty] at hac <;>
        simp only [if_pos hcond] at hac <;> exact Except.noConfusion hac
  · intro m clientID newContent clientVersion e h
    unfold OTManager.ProcessTextUpdate
    rw [apply_error_pair _ _ _ h]

/-- Claim C8 witness: a concrete out-of-range Insert is rejected without
mutation, and a manager whose rebased op lands out of range surfaces the
error with its state untouched. -/
theorem C8_witness :
    ((NewDocument.apply
        { opType := .OpInsert, Position := 1, Content := ['x'], ClientID := ['a'] }).1
          = NewDocument ∧
     ((NewDocument.apply
        { opType := .OpInsert, Position := 1, Content := ['x'], ClientID := ['a'] }).2).isSome) ∧
    (({ document := { Content := [], Version := 1,
                      PendingOps := [{ opType := .OpInsert, Position := 0,
                                       Content := str "abc", ClientID := str "a" }],
                      AcknowledgedOps := [] },
        pendingOps := [], lastContent := [], documentID := str "d" } :
          OTManager).ProcessTextUpdate (str "z") (str "X") 0
      = ((([] : List Char), (1 : Int), some (.invalidInsertPosition 3 0)),
         { document := { Content := [], Version := 1,
                         PendingOps := [{ opType := .OpInsert, Position := 0,
                                          Content := str "abc", ClientID := str "a" }],
                         AcknowledgedOps := [] },
           pendingOps := [], lastContent := [], documentID := str "d" })) :=
  ⟨C8_apply_error_no_mutation.1 NewDocument
      { opType := .OpInsert, Position := 1, Content := ['x'], ClientID := ['a'] }
      (Or.inl ⟨rfl, by decide⟩),
   (C8_apply_error_no_mutation.2
      { document := { Content := [], Version := 1,
                      PendingOps := [{ opType := .OpInsert, Position := 0,
                                       Content := str "abc", ClientID := str "a" }],
                      AcknowledgedOps := [] },
        pendingOps := [], lastContent := [], documentID := str "d" }
      (str "z") (str "X") 0 (.invalidInsertPosition 3 0) (by decide)).trans (by decide)⟩

theorem goStrLt_self (a : List Char) : goStrLt a a = false := by
  induction a with
  | nil => rfl
  | cons x xs ih => simp [goStrLt, ih]

/-- Claim C4: for same-position Inserts with the lexicographically smaller
originator on `a`, `Transform` keeps `a` unchanged and shifts `b` right by
`len(a.Content)`, and both application orders converge to the content with
`a`'s text before `b`'s text at the insertion point. -/
theorem C4_insert_tiebreak (S : List Char) (a b : Operation)
    (ha : a.opType = .OpInsert) (hb : b.opType = .OpInsert)
    (hpos : a.Position = b.Position)
    (hid : goStrLt a.ClientID b.ClientID = true)
    (h0 : 0 ≤ a.Position) (h1 : a.Position ≤ (S.length : Int)) :
    Transform a b = (a, { b with Position := b.Position + a.Content.length }) ∧
    (applyContent S a).bind (fun s => applyContent s (Transform a b).2)
      = .ok (S.take a.Position.toNat ++ a.Content ++ b.Content ++ S.drop a.Position.toNat) ∧
    (applyContent S b).bind (fun s => applyContent s (Transform a b).1)
      = .ok (S.take a.Position.toNat ++ a.Content ++ b.Content ++ S.drop a.Position.toNat) := by
  rcases a with ⟨ta, pa, ca, la, ida, wa⟩
  rcases b with ⟨tb, pb, cb, lb, idb, wb⟩
  dsimp only at ha hb hpos hid h0 h1 ⊢
  subst ha hb
  subst hpos
  obtain ⟨P, rfl⟩ : ∃ n : Nat, pa = (n : Int) := ⟨pa.toNat, by omega⟩
  have hPl : P ≤ S.length := by omega
  have htr : Transform ⟨.OpInsert, (P : Int), ca, la, ida, wa⟩
               ⟨.OpInsert, (P : Int), cb, lb, idb, wb⟩
      = (⟨.OpInsert, (P : Int), ca, la, ida, wa⟩,
         ⟨.OpInsert, (P : Int) + (ca.length : Int), cb, lb, idb, wb⟩) := by
    simp only [Transform, transformInsertInsert]
    rw [if_neg (by omega), if_neg (by omega), if_pos hid]
  refine ⟨htr, ?_, ?_⟩
  · rw [htr]
    dsimp only
    rw [applyContent_ins S ca ida P la wa hPl]
    simp only [Except.bind]
    rw [show (P : Int) + (ca.length : Int) = ((P + ca.length : Nat) : Int) by push_cast; ring]
    rw [applyContent_ins (insAt P ca S) cb idb (P + ca.length) lb wb
      (by rw [length_insAt P ca S hPl]; omega)]
    rw [insAt_insAt_right S ca cb P P (le_refl P) hPl]
    rw [List.drop_take]
    simp [List.append_assoc]
  · rw [htr]
    dsimp only
    rw [applyContent_ins S cb idb P lb wb hPl]
    simp only [Except.bind]
    rw [applyContent_ins (insAt P cb S) ca ida P la wa
      (by rw [length_insAt P cb S hPl]; omega)]
    rw [insAt_insAt_left S ca cb P P (le_refl P) hPl]
    rw [List.drop_take]
    simp [List.append_assoc]

/-- Claim C4 witness: same-position inserts of "A" (client "a") and "B"
(client "b") into "XY" at position 1 converge with "A" before "B". -/
theorem C4_witness :
    (applyContent (str "XY")
        { opType := .OpInsert, Position := 1, Content := str "A", ClientID := str "a" }).bind
      (fun s => applyContent s
        (Transform { opType := .OpInsert, Position := 1, Content := str "A", ClientID := str "a" }
                   { opType := .OpInsert, Position := 1, Content := str "B", ClientID := str "b" }).2)
      = .ok (str "XABY") :=
  ((C4_insert_tiebreak (str "XY")
      { opType := .OpInsert, Position := 1, Content := str "A", ClientID := str "a" }
      { opType := .OpInsert, Position := 1, Content := str "B", ClientID := str "b" }
      rfl rfl rfl (by decide) (by decide) (by decide)).2.1).trans (by rfl)

/-- Claim C6 counterexample: two same-position inserts from the SAME
originator break the mirror property — `Transform` shifts its first
argument in both orders. -/
theorem C6_counterexample :
    ¬ (Transform { opType := .OpInsert, Position := 0, Content := str "Y", ClientID := str "u" }
                 { opType := .OpInsert, Position := 0, Content := str "X", ClientID := str "u" }
        = ((Transform { opType := .OpInsert, Position := 0, Content := str "X", ClientID := str "u" }
                      { opType := .OpInsert, Position := 0, Content := str "Y", ClientID := str "u" }).2,
           (Transform { opType := .OpInsert, Position := 0, Content := str "X", ClientID := str "u" }
                      { opType := .OpInsert, Position := 0, Content := str "Y", ClientID := str "u" }).1)) := by
  decide

/-- Claim C6 (amended): swapping the arguments of `Transform` yields the
mirror-image pair, except when both operations are Inserts at the same
position from the same originator with nonempty text on either side, or
both are Deletes at the same position with positive, unequal lengths
(Delete lengths assumed non-negative). -/
theorem C6_mirror_outside_ties (a b : Operation)
    (h1 : ¬ insInsTieSameClient a b)
    (h2 : ¬ delDelSamePosDiffLen a b)
    (hla : a.opType = .OpDelete → 0 ≤ a.Length)
    (hlb : b.opType = .OpDelete → 0 ≤ b.Length) :
    Transform b a = ((Transform a b).2, (Transform a b).1) := by
  rcases a with ⟨ta, pa, ca, la, ida, wa⟩
  rcases b with ⟨tb, pb, cb, lb, idb, wb⟩
  cases ta <;> cases tb <;> try rfl
  · -- Insert, Insert
    rcases lt_trichotomy pa pb with hlt | heq | hgt
    · have eab : Transform ⟨.OpInsert, pa, ca, la, ida, wa⟩ ⟨.OpInsert, pb, cb, lb, idb, wb⟩
          = (⟨.OpInsert, pa, ca, la, ida, wa⟩,
             ⟨.OpInsert, pb + ca.length, cb, lb, idb, wb⟩) := by
        simp only [Transform, transformInsertInsert]
        rw [if_pos hlt]
      have eba : Transform ⟨.OpInsert, pb, cb, lb, idb, wb⟩ ⟨.OpInsert, pa, ca, la, ida, wa⟩
          = (⟨.OpInsert, pb + ca.length, cb, lb, idb, wb⟩,
             ⟨.OpInsert, pa, ca, la, ida, wa⟩) := by
        simp only [Transform, transformInsertInsert]
        rw [if_neg (by omega), if_pos (by omega)]
      rw [eab, eba]
    · subst heq
      by_cases hc1 : goStrLt ida idb = true
      · have hc2 : goStrLt idb ida = false := goStrLt_asymm _ _ hc1
        have eab : Transform ⟨.OpInsert, pa, ca, la, ida, wa⟩ ⟨.OpInsert, pa, cb, lb, idb, wb⟩
            = (⟨.OpInsert, pa, ca, la, ida, wa⟩,
               ⟨.OpInsert, pa + ca.length, cb, lb, idb, wb⟩) := by
          simp only [Transform, transformInsertInsert]
          rw [if_neg (by omega), if_neg (by omega), if_pos hc1]
        have eba : Transform ⟨.OpInsert, pa, cb, lb, idb, wb⟩ ⟨.OpInsert, pa, ca, la, ida, wa⟩
            = (⟨.OpInsert, pa + ca.length, cb, lb, idb, wb⟩,
               ⟨.OpInsert, pa, ca, la, ida, wa⟩) := by
          simp only [Transform, transformInsertInsert]
          rw [if_neg (by omega), if_neg (by omega), if_neg (by simp [hc2])]
        rw [eab, eba]
      · by_cases hc2 : goStrLt idb ida = true
        · have eab : Transform ⟨.OpInsert, pa, ca, la, ida, wa⟩ ⟨.OpInsert, pa, cb, lb, idb, wb⟩
              = (⟨.OpInsert, pa + cb.length, ca, la, ida, wa⟩,
                 ⟨.OpInsert, pa, cb, lb, idb, wb⟩) := by
            simp only [Transform, transformInsertInsert]
            rw [if_neg (by omega), if_neg (by omega), if_neg (by simp [hc1])]
          have eba : Transform ⟨.OpInsert, pa, cb, lb, idb, wb⟩ ⟨.OpInsert, pa, ca, la, ida, wa⟩
              = (⟨.OpInsert, pa, cb, lb, idb, wb⟩,
                 ⟨.OpInsert, pa + cb.length, ca, la, ida, wa⟩) := by
            simp only [Transform, transformInsertInsert]
            rw [if_neg (by omega), if_neg (by omega), if_pos hc2]
          rw [eab, eba]
        · have hide : ida = idb := goStrLt_eq_of_both_false _ _
            (by simpa using hc1) (by simpa using hc2)
          subst hide
          have hca : ca = [] := by
            by_contra hne
            exact h1 ⟨rfl, rfl, rfl, rfl, Or.inl hne⟩
          have hcb : cb = [] := by
            by_contra hne
            exact h1 ⟨rfl, rfl, rfl, rfl, Or.inr hne⟩
          subst hca
          subst hcb
          simp [Transform, transformInsertInsert, goStrLt_self]
    · have eab : Transform ⟨.OpInsert, pa, ca, la, ida, wa⟩ ⟨.OpInsert, pb, cb, lb, idb, wb⟩
          = (⟨.OpInsert, pa + cb.length, ca, la, ida, wa⟩,
             ⟨.OpInsert, pb, cb, lb, idb, wb⟩) := by
        simp only [Transform, transformInsertInsert]
        rw [if_neg (by omega), if_pos (by omega)]
      have eba : Transform ⟨.OpInsert, pb, cb, lb, idb, wb⟩ ⟨.OpInsert, pa, ca, la, ida, wa⟩
          = (⟨.OpInsert, pb, cb, lb, idb, wb⟩,
             ⟨.OpInsert, pa + cb.length, ca, la, ida, wa⟩) := by
        simp only [Transform, transformInsertInsert]
        rw [if_pos hgt]
      rw [eab, eba]
  · -- Delete, Delete
    have h0a : 0 ≤ la := hla rfl
    have h0b : 0 ≤ lb := hlb rfl
    by_cases hc1 : pa + la ≤ pb
    · by_cases hc2 : pb + lb ≤ pa
      · have ha0 : la = 0 := by omega
        have hb0 : lb = 0 := by omega
        subst ha0
        subst hb0
        have hpe : pa = pb := by omega
        subst hpe
        have eab : Transform ⟨.OpDelete, pa, ca, 0, ida, wa⟩ ⟨.OpDelete, pa, cb, 0, idb, wb⟩
            = (⟨.OpDelete, pa, ca, 0, ida, wa⟩, ⟨.OpDelete, pa - 0, cb, 0, idb, wb⟩) := by
          simp only [Transform, transformDeleteDelete]
          rw [if_pos hc1]
        have eba : Transform ⟨.OpDelete, pa, cb, 0, idb, wb⟩ ⟨.OpDelete, pa, ca, 0, ida, wa⟩
            = (⟨.OpDelete, pa, cb, 0, idb, wb⟩, ⟨.OpDelete, pa - 0, ca, 0, ida, wa⟩) := by
          simp only [Transform, transformDeleteDelete]
          rw [if_pos hc2]
        rw [eab, eba]
        simp
      · have eab : Transform ⟨.OpDelete, pa, ca, la, ida, wa⟩ ⟨.OpDelete, pb, cb, lb, idb, wb⟩
            = (⟨.OpDelete, pa, ca, la, ida, wa⟩, ⟨.OpDelete, pb - la, cb, lb, idb, wb⟩) := by
          simp only [Transform, transformDeleteDelete]
          rw [if_pos hc1]
        have eba : Transform ⟨.OpDelete, pb, cb, lb, idb, wb⟩ ⟨.OpDelete, pa, ca, la, ida, wa⟩
            = (⟨.OpDelete, pb - la, cb, lb, idb, wb⟩, ⟨.OpDelete, pa, ca, la, ida, wa⟩) := by
          simp only [Transform, transformDeleteDelete]
          rw [if_neg hc2, if_pos hc1]
        rw [eab, eba]
    · by_cases hc2 : pb + lb ≤ pa
      · have eab : Transform ⟨.OpDelete, pa, ca, la, ida, wa⟩ ⟨.OpDelete, pb, cb, lb, idb, wb⟩
            = (⟨.OpDelete, pa - lb, ca, la, ida, wa⟩, ⟨.OpDelete, pb, cb, lb, idb, wb⟩) := by
          simp only [Transform, transformDeleteDelete]
          rw [if_neg hc1, if_pos hc2]
        have eba : Transform ⟨.OpDelete, pb, cb, lb, idb, wb⟩ ⟨.OpDelete, pa, ca, la, ida, wa⟩
            = (⟨.OpDelete, pb, cb, lb, idb, wb⟩, ⟨.OpDelete, pa - lb, ca, la, ida, wa⟩) := by
          simp only [Transform, transformDeleteDelete]
          rw [if_pos hc2]
        rw [eab, eba]
      · rcases lt_trichotomy pa pb with hlt | heq | hgt
        · have eab : Transform ⟨.OpDelete, pa, ca, la, ida, wa⟩ ⟨.OpDelete, pb, cb, lb, idb, wb⟩
              = (⟨.OpDelete, pa, ca, la - (pa + la - pb), ida, wa⟩,
                 ⟨.OpDelete, pa, cb, lb - (pa + la - pb), idb, wb⟩) := by
            simp only [Transform, transformDeleteDelete]
            rw [if_neg hc1, if_neg hc2, if_pos hlt]
          have eba : Transform ⟨.OpDelete, pb, cb, lb, idb, wb⟩ ⟨.OpDelete, pa, ca, la, ida, wa⟩
              = (⟨.OpDelete, pa, cb, lb - (pa + la - pb), idb, wb⟩,
                 ⟨.OpDelete, pa, ca, la - (pa + la - pb), ida, wa⟩) := by
            simp only [Transform, transformDeleteDelete]
            rw [if_neg (by omega), if_neg hc1, if_neg (by omega)]
          rw [eab, eba]
        · subst heq
          have hll : la = lb := by
            by_contra hne
            exact h2 ⟨rfl, rfl, rfl, by show 0 < la; omega, by show 0 < lb; omega, hne⟩
          subst hll
          have eab : Transform ⟨.OpDelete, pa, ca, la, ida, wa⟩ ⟨.OpDelete, pa, cb, la, idb, wb⟩
              = (⟨.OpDelete, pa, ca, la - (pa + la - pa), ida, wa⟩,
                 ⟨.OpDelete, pa, cb, la - (pa + la - pa), idb, wb⟩) := by
            simp only [Transform, transformDeleteDelete]
            rw [if_neg hc1, if_neg hc2, if_neg (by omega)]
          have eba : Transform ⟨.OpDelete, pa, cb, la, idb, wb⟩ ⟨.OpDelete, pa, ca, la, ida, wa⟩
              = (⟨.OpDelete, pa, cb, la - (pa + la - pa), idb, wb⟩,
                 ⟨.OpDelete, pa, ca, la - (pa + la - pa), ida, wa⟩) := by
            simp only [Transform, transformDeleteDelete]
            rw [if_neg hc2, if_neg hc1, if_neg (by omega)]
          rw [eab, eba]
        · have eab : Transform ⟨.OpDelete, pa, ca, la, ida, wa⟩ ⟨.OpDelete, pb, cb, lb, idb, wb⟩
              = (⟨.OpDelete, pb, ca, la - (pb + lb - pa), ida, wa⟩,
                 ⟨.OpDelete, pb, cb, lb - (pb + lb - pa), idb, wb⟩) := by
            simp only [Transform, transformDeleteDelete]
            rw [if_neg hc1, if_neg hc2, if_neg (by omega)]
          have eba : Transform ⟨.OpDelete, pb, cb, lb, idb, wb⟩ ⟨.OpDelete, pa, ca, la, ida, wa⟩
              = (⟨.OpDelete, pb, cb, lb - (pb + lb - pa), idb, wb⟩,
                 ⟨.OpDelete, pb, ca, la - (pb + lb - pa), ida, wa⟩) := by
            simp only [Transform, transformDeleteDelete]
            rw [if_neg (by omega), if_neg (by omega), if_pos hgt]
          rw [eab, eba]

/-- Claim C6 witness: with distinct originators, swapping the arguments of
`Transform` on same-position inserts gives the mirror-image pair. -/
theorem C6_witness :
    Transform { opType := .OpInsert, Position := 0, Content := str "Y", ClientID := str "b" }
              { opType := .OpInsert, Position := 0, Content := str "X", ClientID := str "a" }
      = ((Transform { opType := .OpInsert, Position := 0, Content := str "X", ClientID := str "a" }
                    { opType := .OpInsert, Position := 0, Content := str "Y", ClientID := str "b" }).2,
         (Transform { opType := .OpInsert, Position := 0, Content := str "X", ClientID := str "a" }
                    { opType := .OpInsert, Position := 0, Content := str "Y", ClientID := str "b" }).1) :=
  C6_mirror_outside_ties
    { opType := .OpInsert, Position := 0, Content := str "X", ClientID := str "a" }
    { opType := .OpInsert, Position := 0, Content := str "Y", ClientID := str "b" }
    (by decide) (by decide) (by decide) (by decide)

/-- Claim C1 counterexample: for base "abcd", Insert "X"@2 (valid) and
Delete@1 len 2 (valid), the two application orders after `Transform`
disagree: insert-then-delete gives "acd" while delete-then-insert gives
"aXd" — the insert-inside-delete clamp loses the insertion on one side. -/
theorem C1_counterexample :
    validOn { opType := .OpInsert, Position := 2, Content := ['X'], ClientID := str "a" }
      (str "abcd") ∧
    validOn { opType := .OpDelete, Position := 1, Length := 2, ClientID := str "b" }
      (str "abcd") ∧
    (applyContent (str "abcd")
        { opType := .OpInsert, Position := 2, Content := ['X'], ClientID := str "a" }).bind
      (fun s => applyContent s
        (Transform { opType := .OpInsert, Position := 2, Content := ['X'], ClientID := str "a" }
                   { opType := .OpDelete, Position := 1, Length := 2, ClientID := str "b" }).2)
      = .ok (str "acd") ∧
    (applyContent (str "abcd")
        { opType := .OpDelete, Position := 1, Length := 2, ClientID := str "b" }).bind
      (fun s => applyContent s
        (Transform { opType := .OpInsert, Position := 2, Content := ['X'], ClientID := str "a" }
                   { opType := .OpDelete, Position := 1, Length := 2, ClientID := str "b" }).1)
      = .ok (str "aXd") ∧
    str "acd" ≠ str "aXd" :=
  ⟨by decide, by decide, by rfl, by rfl, by decide⟩

/-- Claim C1 (amended): for operations valid on `S` (Delete lengths
non-negative), `apply(apply(S,a), transform(a,b).2) =
apply(apply(S,b), transform(a,b).1)` holds except in the two collapse
configurations the code gets wrong: an Insert with nonempty text strictly
inside the other's deleted range, and overlapping Deletes whose leading
range ends strictly after the trailing one. -/
theorem C1_convergence_outside_collapse (S : List Char) (a b : Operation)
    (hva : validOn a S) (hvb : validOn b S)
    (h1 : ¬ insStrictlyInside a b) (h2 : ¬ insStrictlyInside b a)
    (h3 : ¬ delLeadingOverrun a b) :
    (applyContent S a).bind (fun s => applyContent s (Transform a b).2)
      = (applyContent S b).bind (fun s => applyContent s (Transform a b).1) := by
  rcases a with ⟨ta, pa, ca, la, ida, wa⟩
  rcases b with ⟨tb, pb, cb, lb, idb, wb⟩
  cases ta <;> cases tb
  · -- Insert, Insert
    dsimp only [validOn] at hva hvb
    obtain ⟨Pa, rfl⟩ : ∃ n : Nat, pa = (n : Int) := ⟨pa.toNat, by omega⟩
    obtain ⟨Pb, rfl⟩ : ∃ n : Nat, pb = (n : Int) := ⟨pb.toNat, by omega⟩
    rcases lt_trichotomy ((Pa : Int)) ((Pb : Int)) with hlt | heq | hgt
    · have eab : Transform ⟨.OpInsert, (Pa : Int), ca, la, ida, wa⟩
                   ⟨.OpInsert, (Pb : Int), cb, lb, idb, wb⟩
          = (⟨.OpInsert, (Pa : Int), ca, la, ida, wa⟩,
             ⟨.OpInsert, (Pb : Int) + (ca.length : Int), cb, lb, idb, wb⟩) := by
        simp only [Transform, transformInsertInsert]
        rw [if_pos hlt]
      rw [eab]
      exact chain_ins_ins S ca ida cb idb Pa Pb la wa lb wb (by omega) (by omega)
    · by_cases htie : goStrLt ida idb = true
      · have eab : Transform ⟨.OpInsert, (Pa : Int), ca, la, ida, wa⟩
                     ⟨.OpInsert, (Pb : Int), cb, lb, idb, wb⟩
            = (⟨.OpInsert, (Pa : Int), ca, la, ida, wa⟩,
               ⟨.OpInsert, (Pb : Int) + (ca.length : Int), cb, lb, idb, wb⟩) := by
          simp only [Transform, transformInsertInsert]
          rw [if_neg (by omega), if_neg (by omega), if_pos htie]
        rw [eab]
        exact chain_ins_ins S ca ida cb idb Pa Pb la wa lb wb (by omega) (by omega)
      · have eab : Transform ⟨.OpInsert, (Pa : Int), ca, la, ida, wa⟩
                     ⟨.OpInsert, (Pb : Int), cb, lb, idb, wb⟩
            = (⟨.OpInsert, (Pa : Int) + (cb.length : Int), ca, la, ida, wa⟩,
               ⟨.OpInsert, (Pb : Int), cb, lb, idb, wb⟩) := by
          simp only [Transform, transformInsertInsert]
          rw [if_neg (by omega), if_neg (by omega), if_neg (by simp [htie])]
        rw [eab]
        exact (chain_ins_ins S cb idb ca ida Pb Pa lb wb la wa (by omega) (by omega)).symm
    · have eab : Transform ⟨.OpInsert, (Pa : Int), ca, la, ida, wa⟩
                   ⟨.OpInsert, (Pb : Int), cb, lb, idb, wb⟩
          = (⟨.OpInsert, (Pa : Int) + (cb.length : Int), ca, la, ida, wa⟩,
             ⟨.OpInsert, (Pb : Int), cb, lb, idb, wb⟩) := by
        simp only [Transform, transformInsertInsert]
        rw [if_neg (by omega), if_pos (by omega)]
      rw [eab]
      exact (chain_ins_ins S cb idb ca ida Pb Pa lb wb la wa (by omega) (by omega)).symm
  · -- Insert, Delete
    dsimp only [validOn] at hva hvb
    obtain ⟨Pa, rfl⟩ : ∃ n : Nat, pa = (n : Int) := ⟨pa.toNat, by omega⟩
    obtain ⟨Pb, rfl⟩ : ∃ n : Nat, pb = (n : Int) := ⟨pb.toNat, by omega⟩
    obtain ⟨Lb, rfl⟩ : ∃ n : Nat, lb = (n : Int) := ⟨lb.toNat, by omega⟩
    by_cases hc1 : (Pa : Int) ≤ (Pb : Int)
    · have eab : Transform ⟨.OpInsert, (Pa : Int), ca, la, ida, wa⟩
                   ⟨.OpDelete, (Pb : Int), cb, (Lb : Int), idb, wb⟩
          = (⟨.OpInsert, (Pa : Int), ca, la, ida, wa⟩,
             ⟨.OpDelete, (Pb : Int) + (ca.length : Int), cb, (Lb : Int), idb, wb⟩) := by
        simp only [Transform, transformInsertDelete]
        rw [if_pos hc1]
      rw [eab]
      exact chain_ins_del S ca ida cb idb Pa Pb Lb la wa wb (by omega) (by omega)
    · by_cases hc2 : (Pa : Int) ≥ (Pb : Int) + (Lb : Int)
      · have eab : Transform ⟨.OpInsert, (Pa : Int), ca, la, ida, wa⟩
                     ⟨.OpDelete, (Pb : Int), cb, (Lb : Int), idb, wb⟩
            = (⟨.OpInsert, (Pa : Int) - (Lb : Int), ca, la, ida, wa⟩,
               ⟨.OpDelete, (Pb : Int), cb, (Lb : Int), idb, wb⟩) := by
          simp only [Transform, transformInsertDelete]
          rw [if_neg hc1, if_pos hc2]
        rw [eab]
        exact chain_del_ins S ca ida cb idb Pa Pb Lb la wa wb (by omega) (by omega)
      · have hca : ca = [] := by
          by_contra hne
          exact h1 ⟨rfl, rfl, hne, by show (Pb : Int) < (Pa : Int); omega,
            by show (Pa : Int) < (Pb : Int) + (Lb : Int); omega⟩
        subst hca
        have eab : Transform ⟨.OpInsert, (Pa : Int), [], la, ida, wa⟩
                     ⟨.OpDelete, (Pb : Int), cb, (Lb : Int), idb, wb⟩
            = (⟨.OpInsert, (Pb : Int), [], la, ida, wa⟩,
               ⟨.OpDelete, (Pb : Int), cb, (Lb : Int), idb, wb⟩) := by
          simp only [Transform, transformInsertDelete]
          rw [if_neg hc1, if_neg (by omega)]
        rw [eab]
        dsimp only
        rw [applyContent_ins S [] ida Pa la wa (by omega)]
        rw [applyContent_del S cb idb Pb Lb wb (by omega)]
        simp only [Except.bind]
        rw [applyContent_del (insAt Pa [] S) cb idb Pb Lb wb
          (by rw [length_insAt Pa [] S (by omega)]; simp; omega)]
        rw [applyContent_ins (delAt Pb Lb S) [] ida Pb la wa
          (by rw [length_delAt Pb Lb S (by omega)]; omega)]
        rw [insAt_nil, insAt_nil]
  · -- Insert, Retain
    simp only [Transform]
    rw [applyContent_ret S ⟨.OpRetain, pb, cb, lb, idb, wb⟩ rfl]
    simp only [Except.bind]
    cases happ : applyContent S ⟨.OpInsert, pa, ca, la, ida, wa⟩ with
    | error e => simp [Except.bind]
    | ok s => simp [Except.bind, applyContent_ret s ⟨.OpRetain, pb, cb, lb, idb, wb⟩ rfl]
  · -- Delete, Insert
    dsimp only [validOn] at hva hvb
    obtain ⟨Pa, rfl⟩ : ∃ n : Nat, pa = (n : Int) := ⟨pa.toNat, by omega⟩
    obtain ⟨La, rfl⟩ : ∃ n : Nat, la = (n : Int) := ⟨la.toNat, by omega⟩
    obtain ⟨Pb, rfl⟩ : ∃ n : Nat, pb = (n : Int) := ⟨pb.toNat, by omega⟩
    by_cases hc1 : (Pb : Int) ≤ (Pa : Int)
    · have eab : Transform ⟨.OpDelete, (Pa : Int), ca, (La : Int), ida, wa⟩
                   ⟨.OpInsert, (Pb : Int), cb, lb, idb, wb⟩
          = (⟨.OpDelete, (Pa : Int) + (cb.length : Int), ca, (La : Int), ida, wa⟩,
             ⟨.OpInsert, (Pb : Int), cb, lb, idb, wb⟩) := by
        simp only [Transform, transformInsertDelete]
        rw [if_pos hc1]
      rw [eab]
      exact (chain_ins_del S cb idb ca ida Pb Pa La lb wb wa (by omega) (by omega)).symm
    · by_cases hc2 : (Pb : Int) ≥ (Pa : Int) + (La : Int)
      · have eab : Transform ⟨.OpDelete, (Pa : Int), ca, (La : Int), ida, wa⟩
                     ⟨.OpInsert, (Pb : Int), cb, lb, idb, wb⟩
            = (⟨.OpDelete, (Pa : Int), ca, (La : Int), ida, wa⟩,
               ⟨.OpInsert, (Pb : Int) - (La : Int), cb, lb, idb, wb⟩) := by
          simp only [Transform, transformInsertDelete]
          rw [if_neg hc1, if_pos hc2]
        rw [eab]
        exact (chain_del_ins S cb idb ca ida Pb Pa La lb wb wa (by omega) (by omega)).symm
      · have hcb : cb = [] := by
          by_contra hne
          exact h2 ⟨rfl, rfl, hne, by show (Pa : Int) < (Pb : Int); omega,
            by show (Pb : Int) < (Pa : Int) + (La : Int); omega⟩
        subst hcb
        have eab : Transform ⟨.OpDelete, (Pa : Int), ca, (La : Int), ida, wa⟩
                     ⟨.OpInsert, (Pb : Int), [], lb, idb, wb⟩
            = (⟨.OpDelete, (Pa : Int), ca, (La : Int), ida, wa⟩,
               ⟨.OpInsert, (Pa : Int), [], lb, idb, wb⟩) := by
          simp only [Transform, transformInsertDelete]
          rw [if_neg (by omega), if_neg (by omega)]
        rw [eab]
        dsimp only
        rw [applyContent_ins S [] idb Pb lb wb (by omega)]
        rw [applyContent_del S ca ida Pa La wa (by omega)]
        simp only [Except.bind]
        rw [applyContent_ins (delAt Pa La S) [] idb Pa lb wb
          (by rw [length_delAt Pa La S (by omega)]; omega)]
        rw [applyContent_del (insAt Pb [] S) ca ida Pa La wa
          (by rw [length_insAt Pb [] S (by omega)]; simp; omega)]
        rw [insAt_nil, insAt_nil]
  · -- Delete, Delete
    dsimp only [validOn] at hva hvb
    obtain ⟨Pa, rfl⟩ : ∃ n : Nat, pa = (n : Int) := ⟨pa.toNat, by omega⟩
    obtain ⟨La, rfl⟩ : ∃ n : Nat, la = (n : Int) := ⟨la.toNat, by omega⟩
    obtain ⟨Pb, rfl⟩ : ∃ n : Nat, pb = (n : Int) := ⟨pb.toNat, by omega⟩
    obtain ⟨Lb, rfl⟩ : ∃ n : Nat, lb = (n : Int) := ⟨lb.toNat, by omega⟩
    by_cases hc1 : (Pa : Int) + (La : Int) ≤ (Pb : Int)
    · have eab : Transform ⟨.OpDelete, (Pa : Int), ca, (La : Int), ida, wa⟩
                   ⟨.OpDelete, (Pb : Int), cb, (Lb : Int), idb, wb⟩
          = (⟨.OpDelete, (Pa : Int), ca, (La : Int), ida, wa⟩,
             ⟨.OpDelete, (Pb : Int) - (La : Int), cb, (Lb : Int), idb, wb⟩) := by
        simp only [Transform, transformDeleteDelete]
        rw [if_pos hc1]
      rw [eab]
      exact chain_del_del_disjoint S ca ida cb idb Pa La Pb Lb wa wb (by omega) (by omega)
    · by_cases hc2 : (Pb : Int) + (Lb : Int) ≤ (Pa : Int)
      · have eab : Transform ⟨.OpDelete, (Pa : Int), ca, (La : Int), ida, wa⟩
                     ⟨.OpDelete, (Pb : Int), cb, (Lb : Int), idb, wb⟩
            = (⟨.OpDelete, (Pa : Int) - (Lb : Int), ca, (La : Int), ida, wa⟩,
               ⟨.OpDelete, (Pb : Int), cb, (Lb : Int), idb, wb⟩) := by
          simp only [Transform, transformDeleteDelete]
          rw [if_neg hc1, if_pos hc2]
        rw [eab]
        exact (chain_del_del_disjoint S cb idb ca ida Pb Lb Pa La wb wa (by omega) (by omega)).symm
      · by_cases hlt : (Pa : Int) < (Pb : Int)
        · have hnc : (Pa : Int) + (La : Int) ≤ (Pb : Int) + (Lb : Int) := by
            by_contra hcc
            exact h3 ⟨rfl, rfl, by show (Pb:Int) < (Pa:Int) + (La:Int); omega,
              by show (Pa:Int) < (Pb:Int) + (Lb:Int); omega,
              Or.inl ⟨hlt, by show (Pb:Int) + (Lb:Int) < (Pa:Int) + (La:Int); omega⟩⟩
          have eab : Transform ⟨.OpDelete, (Pa : Int), ca, (La : Int), ida, wa⟩
                       ⟨.OpDelete, (Pb : Int), cb, (Lb : Int), idb, wb⟩
              = (⟨.OpDelete, (Pa : Int), ca,
                   (La : Int) - ((Pa : Int) + (La : Int) - (Pb : Int)), ida, wa⟩,
                 ⟨.OpDelete, (Pa : Int), cb,
                   (Lb : Int) - ((Pa : Int) + (La : Int) - (Pb : Int)), idb, wb⟩) := by
            simp only [Transform, transformDeleteDelete]
            rw [if_neg hc1, if_neg hc2, if_pos hlt]
          rw [eab]
          dsimp only
          rw [show (La : Int) - ((Pa : Int) + (La : Int) - (Pb : Int))
                = ((Pb - Pa : Nat) : Int) by omega]
          rw [show (Lb : Int) - ((Pa : Int) + (La : Int) - (Pb : Int))
                = ((Pb + Lb - (Pa + La) : Nat) : Int) by omega]
          exact chain_del_del_overlap S ca ida cb idb Pa La Pb Lb wa wb
            (by omega) (by omega) (by omega) (by omega)
        · have hnc : (Pb : Int) + (Lb : Int) ≤ (Pa : Int) + (La : Int) := by
            by_contra hcc
            exact h3 ⟨rfl, rfl, by show (Pb:Int) < (Pa:Int) + (La:Int); omega,
              by show (Pa:Int) < (Pb:Int) + (Lb:Int); omega,
              Or.inr ⟨by show (Pb:Int) ≤ (Pa:Int); omega,
                by show (Pa:Int) + (La:Int) < (Pb:Int) + (Lb:Int); omega⟩⟩
          have eab : Transform ⟨.OpDelete, (Pa : Int), ca, (La : Int), ida, wa⟩
                       ⟨.OpDelete, (Pb : Int), cb, (Lb : Int), idb, wb⟩
              = (⟨.OpDelete, (Pb : Int), ca,
                   (La : Int) - ((Pb : Int) + (Lb : Int) - (Pa : Int)), ida, wa⟩,
                 ⟨.OpDelete, (Pb : Int), cb,
                   (Lb : Int) - ((Pb : Int) + (Lb : Int) - (Pa : Int)), idb, wb⟩) := by
            simp only [Transform, transformDeleteDelete]
            rw [if_neg hc1, if_neg hc2, if_neg hlt]
          rw [eab]
          dsimp only
          rw [show (Lb : Int) - ((Pb : Int) + (Lb : Int) - (Pa : Int))
                = ((Pa - Pb : Nat) : Int) by omega]
          rw [show (La : Int) - ((Pb : Int) + (Lb : Int) - (Pa : Int))
                = ((Pa + La - (Pb + Lb) : Nat) : Int) by omega]
          exact (chain_del_del_overlap S cb idb ca ida Pb Lb Pa La wb wa
            (by omega) (by omega) (by omega) (by omega)).symm
  · -- Delete, Retain
    simp only [Transform]
    rw [applyContent_ret S ⟨.OpRetain, pb, cb, lb, idb, wb⟩ rfl]
    simp only [Except.bind]
    cases happ : applyContent S ⟨.OpDelete, pa, ca, la, ida, wa⟩ with
    | error e => simp [Except.bind]
    | ok s => simp [Except.bind, applyContent_ret s ⟨.OpRetain, pb, cb, lb, idb, wb⟩ rfl]
  · -- Retain, Insert
    simp only [Transform]
    rw [applyContent_ret S ⟨.OpRetain, pa, ca, la, ida, wa⟩ rfl]
    simp only [Except.bind]
    cases happ : applyContent S ⟨.OpInsert, pb, cb, lb, idb, wb⟩ with
    | error e => simp [happ, Except.bind]
    | ok s => simp [happ, Except.bind, applyContent_ret s ⟨.OpRetain, pa, ca, la, ida, wa⟩ rfl]
  · -- Retain, Delete
    simp only [Transform]
    rw [applyContent_ret S ⟨.OpRetain, pa, ca, la, ida, wa⟩ rfl]
    simp only [Except.bind]
    cases happ : applyContent S ⟨.OpDelete, pb, cb, lb, idb, wb⟩ with
    | error e => simp [happ, Except.bind]
    | ok s => simp [happ, Except.bind, applyContent_ret s ⟨.OpRetain, pa, ca, la, ida, wa⟩ rfl]
  · -- Retain, Retain
    simp only [Transform]
    rw [applyContent_ret S ⟨.OpRetain, pa, ca, la, ida, wa⟩ rfl,
        applyContent_ret S ⟨.OpRetain, pb, cb, lb, idb, wb⟩ rfl]
    simp only [Except.bind]
    rw [applyContent_ret S ⟨.OpRetain, pa, ca, la, ida, wa⟩ rfl,
        applyContent_ret S ⟨.OpRetain, pb, cb, lb, idb, wb⟩ rfl]

/-- Claim C1 witness: a disjoint valid Insert and Delete on "xy" converge
through the amended theorem. -/
theorem C1_witness :
    (applyContent (str "xy")
        { opType := .OpInsert, Position := 0, Content := str "Z", ClientID := str "a" }).bind
      (fun s => applyContent s
        (Transform { opType := .OpInsert, Position := 0, Content := str "Z", ClientID := str "a" }
                   { opType := .OpDelete, Position := 1, Length := 1, ClientID := str "b" }).2)
      = (applyContent (str "xy")
          { opType := .OpDelete, Position := 1, Length := 1, ClientID := str "b" }).bind
        (fun s => applyContent s
          (Transform { opType := .OpInsert, Position := 0, Content := str "Z", ClientID := str "a" }
                     { opType := .OpDelete, Position := 1, Length := 1, ClientID := str "b" }).1) :=
  C1_convergence_outside_collapse (str "xy")
    { opType := .OpInsert, Position := 0, Content := str "Z", ClientID := str "a" }
    { opType := .OpDelete, Position := 1, Length := 1, ClientID := str "b" }
    (by decide) (by decide) (by decide) (by decide) (by decide)

end CollabEdit
